import Mathlib

/-!
Shallow embedding of `src/app/main.py` (YouTube Transcript Cache) and
verification of the specification's claims about it.

The core translated here: language-preference normalization
(`normalize_languages`), the throttle (`yt_throttle`), the cache store
operations (`db_get_transcript`, `db_upsert_transcript`, `cleanup`),
the upstream fetch wrapper (`fetch_transcript_from_youtube`) and the
`/transcript` orchestrator (`transcript`).

External collaborators are abstracted as parameters, exactly at their
interface: the SHA-256 hash from Python's `hashlib` is a parameter
`hashF : String → String` (the claims depend only on it being a
deterministic function), and the upstream client `ytt_api.fetch` is a
parameter `fetchF : String → List String → Except Unit (List String)`
returning the ordered segment texts or an error (every exception is
handled uniformly by the source, so a single error token suffices).
Wall-clock time is an explicit `Int` field of the state.
-/

/-! ## Python string primitives used by the source -/

/-- One-sided whitespace removal on a character list: the leading
whitespace run is dropped.  Direct model of what one side of Python's
`str.strip()` does. -/
def dropWS : List Char → List Char
  | [] => []
  | c :: cs => if c.isWhitespace then dropWS cs else c :: cs

/-- Both-sided strip on character lists: drop the leading whitespace run,
then the trailing one (via reverse). -/
def stripChars (l : List Char) : List Char :=
  ((dropWS l).reverse |> dropWS).reverse

/-- Python's `str.strip()`: remove leading and trailing whitespace. -/
def pyStrip (s : String) : String :=
  ⟨stripChars s.data⟩

/-- Python's `str.lower()`: lowercase every character. -/
def pyLower (s : String) : String :=
  ⟨s.data.map Char.toLower⟩

/-- Python's `sep.join(xs)`: empty for `[]`, otherwise fold the separator
between consecutive elements. -/
def pyJoin (sep : String) : List String → String
  | [] => ""
  | x :: xs => xs.foldl (fun acc y => acc ++ sep ++ y) x

/-! ## `normalize_languages` (main.py lines 110–125)

The Python loop keeps a `seen` set and a `cleaned` list that always hold
the same elements, so the membership test `l not in seen` is translated
as membership in the accumulator. -/

/-- The body of the `for l in languages` loop of `normalize_languages`,
with the accumulated `cleaned` list made explicit. -/
def cleanGo (acc : List String) : List String → List String
  | [] => acc
  | l :: ls =>
    let l' := pyStrip l
    if l' = "" then cleanGo acc ls
    else if l' ∈ acc then cleanGo acc ls
    else cleanGo (acc ++ [l']) ls

/-- The cleaned list computed by `normalize_languages` before the
default-pair substitution. -/
def cleanLanguages (languages : List String) : List String :=
  cleanGo [] languages

/-- Model of `normalize_languages`: strip entries, drop blanks, dedup by first
occurrence, substitute `["pl", "en"]` when nothing is left, and join
with `","` into the cache key. -/
def normalize_languages (languages : List String) : List String × String :=
  let cleaned := cleanLanguages languages
  let cleaned := if cleaned = [] then ["pl", "en"] else cleaned
  (cleaned, pyJoin "," cleaned)

/-! Spec-side restatement of the normalizer, used for the refinement in
claim C3: blank entries removed, duplicates removed by first occurrence
preserving order. -/

/-- Spec-side cleaning: strip every entry and drop the blank ones. -/
def removeBlanks (l : List String) : List String :=
  (l.map pyStrip).filter (fun s => decide (s ≠ ""))

/-- Worker for first-occurrence deduplication: `seen` records the
elements already emitted. -/
def dedupGo (seen : List String) : List String → List String
  | [] => []
  | x :: xs => if x ∈ seen then dedupGo seen xs else x :: dedupGo (seen ++ [x]) xs

/-- Spec-side first-occurrence deduplication, preserving order. -/
def dedupFirst (l : List String) : List String :=
  dedupGo [] l

/-- Spec-side normalizer, built from the spec's words: cleaned sequence
(blanks removed, dedup by first occurrence), default pair when empty,
joined by the fixed delimiter. -/
def normalizeSpec (languages : List String) : List String × String :=
  let cleaned := dedupFirst (removeBlanks languages)
  let cleaned := if cleaned = [] then ["pl", "en"] else cleaned
  (cleaned, pyJoin "," cleaned)

/-! ## The cache store (table `transcript_cache`)

The table is keyed by `(video_id, languages_key, format)` with columns
`content`, `transcript_hash`, `fetched_at`; it is modelled as an
association list of key/row pairs.  Timestamps are `Int` seconds. -/

/-- Primary key of `transcript_cache`. -/
structure CacheKey where
  video_id : String
  languages_key : String
  format : String
deriving DecidableEq, Repr

/-- Non-key columns of `transcript_cache`. -/
structure CacheRow where
  content : String
  transcript_hash : String
  fetched_at : Int
deriving DecidableEq, Repr

/-- The `transcript_cache` table. -/
abbrev Store := List (CacheKey × CacheRow)

/-- Model of `db_get_transcript` (main.py lines 143–170): point SELECT on the
primary key, `None` on a miss. -/
def db_get_transcript : Store → String → String → String → Option CacheRow
  | [], _, _, _ => none
  | r :: rest, v, k, f =>
    if r.1 = ⟨v, k, f⟩ then some r.2 else db_get_transcript rest v k f

/-- Model of `db_upsert_transcript` (main.py lines 173–195): INSERT .. ON CONFLICT
on the primary key DO UPDATE content, transcript_hash and
`fetched_at = now()`; a fresh row also gets `fetched_at` from the
`now()` column default. -/
def db_upsert_transcript : Store → String → String → String → String → String → Int → Store
  | [], v, k, f, c, h, now => [(⟨v, k, f⟩, ⟨c, h, now⟩)]
  | r :: rest, v, k, f, c, h, now =>
    if r.1 = ⟨v, k, f⟩ then (r.1, ⟨c, h, now⟩) :: rest
    else r :: db_upsert_transcript rest v k f c h now

/-- Model of `/cleanup` (main.py lines 310–325): DELETE every row with
`fetched_at < now() - keep_days days` and report the row count.
`86400` converts the day-valued interval to the second-valued
timestamps of the model. -/
def cleanup (store : Store) (now : Int) (keep_days : Int) : Store × Nat :=
  let removed := store.filter (fun r => decide (r.2.fetched_at < now - keep_days * 86400))
  let kept := store.filter (fun r => !decide (r.2.fetched_at < now - keep_days * 86400))
  (kept, removed.length)

/-! ## Throttle and orchestrator state -/

/-- Mutable process state seen by one request: the cache table, the
shared `_last_yt_call_ts` global (initialized to the sentinel `0.0`)
and the wall clock `time.time()`. -/
structure AppState where
  store : Store
  last_yt_call_ts : Int
  now : Int
deriving DecidableEq, Repr

/-- Model of `yt_throttle` (main.py lines 132–140), sequential view: compute
`wait = (_last_yt_call_ts + interval) - now`, sleep when positive
(advancing the clock), then set `_last_yt_call_ts` to the current
time.  The interleaved, two-thread view used for the concurrency claim
is `ThrottleStep` below. -/
def yt_throttle (interval : Int) (st : AppState) : AppState :=
  let wait := (st.last_yt_call_ts + interval) - st.now
  let st := if 0 < wait then { st with now := st.now + wait } else st
  { st with last_yt_call_ts := st.now }

/-! ### Interleaved view of `yt_throttle` for two concurrent callers

FastAPI runs the sync `/transcript` handler on a thread pool, so two
requests can execute `yt_throttle` concurrently.  The body is split at
its interleaving points: `wait = (_last_yt_call_ts + I) - now` (a read
of the shared global), the conditional `time.sleep(wait)`, and the
write `_last_yt_call_ts = time.time()`.  Nothing in the source takes a
lock around this sequence. -/

/-- Program counter of one thread inside `yt_throttle`'s body. -/
inductive ThrottlePc where
  | atRead
  | atGate
  | atWrite
  | finished
deriving DecidableEq, Repr

/-- One thread executing `yt_throttle`: its program counter, the local
`wait`, the time its sleep would end, whether it slept, and the clock
value at which it performed the final write (the moment the caller
proceeds to the upstream call). -/
structure ThrottleThread where
  pc : ThrottlePc
  wait : Int
  wakeAt : Int
  slept : Bool
  proceedAt : Int
deriving DecidableEq, Repr

/-- A thread that has not yet entered the function. -/
def ThrottleThread.start : ThrottleThread :=
  ⟨.atRead, 0, 0, false, 0⟩

/-- Shared state of two concurrent `yt_throttle` calls: the global
`_last_yt_call_ts`, the wall clock, and the two threads. -/
structure ThrottleSys where
  last_ts : Int
  clock : Int
  thA : ThrottleThread
  thB : ThrottleThread
deriving DecidableEq, Repr

/-- Select thread `i` (`true` = A, `false` = B). -/
def getTh (s : ThrottleSys) (i : Bool) : ThrottleThread :=
  if i then s.thA else s.thB

/-- Replace thread `i`. -/
def setTh (s : ThrottleSys) (i : Bool) (t : ThrottleThread) : ThrottleSys :=
  if i then { s with thA := t } else { s with thB := t }

/-- Small-step interleaving semantics of two concurrent `yt_throttle`
calls, as written in the source (no lock around the read-decide-write
sequence).  `read` evaluates `wait` from the shared timestamp; `pass`
takes the `wait <= 0` branch of the sleep conditional; `wake` finishes
`time.sleep(wait)` once the clock has reached the wake time; `write`
stores the current time into the shared global; `tick` lets wall-clock
time pass. -/
inductive ThrottleStep (interval : Int) : ThrottleSys → ThrottleSys → Prop where
  | read (s : ThrottleSys) (i : Bool) :
      (getTh s i).pc = .atRead →
      ThrottleStep interval s
        (setTh s i { getTh s i with
                       pc := .atGate,
                       wait := (s.last_ts + interval) - s.clock,
                       wakeAt := s.clock + ((s.last_ts + interval) - s.clock) })
  | pass (s : ThrottleSys) (i : Bool) :
      (getTh s i).pc = .atGate → (getTh s i).wait ≤ 0 →
      ThrottleStep interval s (setTh s i { getTh s i with pc := .atWrite })
  | wake (s : ThrottleSys) (i : Bool) :
      (getTh s i).pc = .atGate → 0 < (getTh s i).wait →
      (getTh s i).wakeAt ≤ s.clock →
      ThrottleStep interval s
        (setTh s i { getTh s i with pc := .atWrite, slept := true })
  | write (s : ThrottleSys) (i : Bool) :
      (getTh s i).pc = .atWrite →
      ThrottleStep interval s
        { setTh s i { getTh s i with pc := .finished, proceedAt := s.clock }
          with last_ts := s.clock }
  | tick (s : ThrottleSys) (d : Int) :
      0 < d →
      ThrottleStep interval s { s with clock := s.clock + d }

/-- Executions of the two-thread throttle system. -/
def ThrottleReaches (interval : Int) : ThrottleSys → ThrottleSys → Prop :=
  Relation.ReflTransGen (ThrottleStep interval)

/-- The error outcomes raised by the source as `HTTPException`s. -/
inductive ApiError where
  /-- Status 400 "Only format=text is supported for now" -/
  | unsupportedFormat
  /-- Status 429 "YouTube transcript blocked/rate-limited" (any upstream exception) -/
  | upstreamBlocked
  /-- Status 404 "Transcript is empty or not available" -/
  | emptyContent
deriving DecidableEq, Repr

/-- HTTP status code attached to each raised error. -/
def statusCode : ApiError → Nat
  | .unsupportedFormat => 400
  | .upstreamBlocked => 429
  | .emptyContent => 404

/-- Effect counters for one orchestrator run, used to state the
"no lookup / no upstream call / no throttle / no write" obligations. -/
structure RunCounters where
  dbLookups : Nat
  upstreamCalls : Nat
  throttleAcquires : Nat
  dbWrites : Nat
deriving DecidableEq, Repr

/-- Model of `fetch_transcript_from_youtube` (main.py lines 198–242): throttle,
call the upstream client, join the segment texts with a newline and
strip; any upstream exception becomes the 429 error, an empty joined
text the 404 error. -/
def fetch_transcript_from_youtube
    (fetchF : String → List String → Except Unit (List String))
    (interval : Int) (video_id : String) (languages : List String)
    (st : AppState) : Except ApiError String × AppState × RunCounters :=
  let st := yt_throttle interval st
  match fetchF video_id languages with
  | .error _ => (.error .upstreamBlocked, st, ⟨0, 1, 1, 0⟩)
  | .ok segs =>
    let text := pyStrip (pyJoin "\n" segs)
    if text = "" then (.error .emptyContent, st, ⟨0, 1, 1, 0⟩)
    else (.ok text, st, ⟨0, 1, 1, 0⟩)

/-- JSON body returned by `/transcript`; `fetched_at` is present only in
the cache-hit body, as in the source. -/
structure TranscriptResponse where
  videoId : String
  languages : List String
  languages_key : String
  format : String
  cached : Bool
  transcript_hash : String
  fetched_at : Option Int
  content : String
deriving DecidableEq, Repr

deriving instance DecidableEq for Except

/-- Outcome of one `/transcript` run: the HTTP response or error, the
process state afterwards, and the effect counters. -/
structure RunResult where
  response : Except ApiError TranscriptResponse
  state : AppState
  counters : RunCounters
deriving DecidableEq, Repr

/-- The `/transcript` orchestrator (main.py lines 253–307).
`hashF` stands for `sha256_text` (hashlib-backed), `fetchF` for the
upstream client, `interval` for `YT_MIN_INTERVAL_SECONDS`. -/
def transcript (hashF : String → String)
    (fetchF : String → List String → Except Unit (List String))
    (interval : Int) (video : String) (languages : List String)
    (format : String) (force : Bool) (st : AppState) : RunResult :=
  let norm := normalize_languages languages
  let langs := norm.1
  let langs_key := norm.2
  let fmt := pyLower (pyStrip format)
  if fmt ≠ "text" then ⟨.error .unsupportedFormat, st, ⟨0, 0, 0, 0⟩⟩
  else
    let lookups : Nat := if force then 0 else 1
    match if force then none else db_get_transcript st.store video langs_key fmt with
    | some cached =>
        ⟨.ok ⟨video, langs, langs_key, fmt, true, cached.transcript_hash,
              some cached.fetched_at, cached.content⟩,
         st, ⟨1, 0, 0, 0⟩⟩
    | none =>
        match fetch_transcript_from_youtube fetchF interval video langs st with
        | (.error e, st', c) =>
            ⟨.error e, st', { c with dbLookups := lookups }⟩
        | (.ok content, st', _) =>
            let h := hashF content
            let store' := db_upsert_transcript st'.store video langs_key fmt content h st'.now
            ⟨.ok ⟨video, langs, langs_key, fmt, false, h, none, content⟩,
             { st' with store := store' }, ⟨lookups, 1, 1, 1⟩⟩

/-- The fingerprint/content invariant of the store: every row's
`transcript_hash` column is the hash of the `content` column of the
same row. -/
def StoreHashed (hashF : String → String) (store : Store) : Prop :=
  ∀ r ∈ store, r.2.transcript_hash = hashF r.2.content

/-- Initial state for two concurrent `yt_throttle` calls: the shared
timestamp still holds the sentinel `0.0`, the clock is at 100 (any
value at least one interval past the sentinel), and neither thread has
started. -/
def throttleRaceInit : ThrottleSys :=
  ⟨0, 100, .start, .start⟩

/-! ## Lemmas about the string primitives -/

theorem dropWS_length_le (l : List Char) : (dropWS l).length ≤ l.length := by
  induction l with
  | nil => exact Nat.le_refl _
  | cons c cs ih =>
    by_cases hw : c.isWhitespace
    · rw [dropWS, if_pos hw]
      exact Nat.le_trans ih (Nat.le_succ _)
    · rw [dropWS, if_neg hw]

theorem dropWS_idem (l : List Char) : dropWS (dropWS l) = dropWS l := by
  induction l with
  | nil => rfl
  | cons c cs ih =>
    by_cases hw : c.isWhitespace
    · rw [dropWS, if_pos hw]
      exact ih
    · rw [dropWS, if_neg hw, dropWS, if_neg hw]

theorem dropWS_suffix (l : List Char) : ∃ t, t ++ dropWS l = l := by
  induction l with
  | nil => exact ⟨[], rfl⟩
  | cons c cs ih =>
    by_cases hw : c.isWhitespace
    · obtain ⟨t, ht⟩ := ih
      exact ⟨c :: t, by rw [dropWS, if_pos hw, List.cons_append, ht]⟩
    · exact ⟨[], by rw [dropWS, if_neg hw, List.nil_append]⟩

theorem dropWS_of_append_self {b r : List Char}
    (h : dropWS (b ++ r) = b ++ r) : dropWS b = b := by
  cases b with
  | nil => rfl
  | cons c bs =>
    by_cases hw : c.isWhitespace
    · exfalso
      rw [List.cons_append, dropWS, if_pos hw] at h
      have hlen := congrArg List.length h
      have hle := dropWS_length_le (bs ++ r)
      simp only [List.length_append, List.length_cons] at hlen hle
      omega
    · rw [dropWS, if_neg hw]

theorem stripChars_idem (l : List Char) : stripChars (stripChars l) = stripChars l := by
  have hfix : dropWS (dropWS l) = dropWS l := dropWS_idem l
  have hb : dropWS (stripChars l) = stripChars l := by
    obtain ⟨t, ht⟩ := dropWS_suffix (dropWS l).reverse
    have ha : dropWS l = stripChars l ++ t.reverse := by
      have := congrArg List.reverse ht
      simpa [stripChars] using this.symm
    apply dropWS_of_append_self (r := t.reverse)
    rw [← ha, hfix, ha]
  show ((dropWS (stripChars l)).reverse |> dropWS).reverse = stripChars l
  rw [hb]
  show (dropWS ((dropWS ((dropWS l).reverse)).reverse).reverse).reverse = stripChars l
  rw [List.reverse_reverse, dropWS_idem]
  rfl

theorem pyStrip_idem (s : String) : pyStrip (pyStrip s) = pyStrip s := by
  show (⟨stripChars (stripChars s.data)⟩ : String) = ⟨stripChars s.data⟩
  exact congrArg String.mk (stripChars_idem s.data)

/-! ## Lemmas about the normalizer -/

theorem removeBlanks_nil : removeBlanks [] = [] := rfl

theorem removeBlanks_cons (l : String) (ls : List String) :
    removeBlanks (l :: ls) =
      if pyStrip l = "" then removeBlanks ls else pyStrip l :: removeBlanks ls := by
  by_cases h : pyStrip l = "" <;> simp [removeBlanks, h]

/-- The source's accumulator loop is first-occurrence deduplication of
the blank-free stripped input, run with the accumulator as the initial
seen-set. -/
theorem cleanGo_eq (ls : List String) :
    ∀ acc, cleanGo acc ls = acc ++ dedupGo acc (removeBlanks ls) := by
  induction ls with
  | nil => intro acc; simp [cleanGo, removeBlanks, dedupGo]
  | cons l ls ih =>
    intro acc
    rw [removeBlanks_cons]
    by_cases h1 : pyStrip l = ""
    · rw [if_pos h1]
      simpa [cleanGo, h1] using ih acc
    · rw [if_neg h1]
      by_cases h2 : pyStrip l ∈ acc
      · simp only [cleanGo, h1, if_neg h1, if_pos h2, dedupGo, ite_true]
        simpa [dedupGo, h2] using ih acc
      · simp only [cleanGo, h1, if_neg h1, if_neg h2, dedupGo, ite_false]
        rw [ih (acc ++ [pyStrip l])]
        simp [dedupGo, h2]

theorem cleanLanguages_eq_spec (languages : List String) :
    cleanLanguages languages = dedupFirst (removeBlanks languages) := by
  simpa [cleanLanguages, dedupFirst] using cleanGo_eq languages []

/-- Every element the loop emits is a fixed point of stripping and is
non-blank (elements come from the accumulator or from `pyStrip l`). -/
theorem cleanGo_elems (ls : List String) :
    ∀ acc, (∀ s ∈ acc, pyStrip s = s ∧ s ≠ "") →
      ∀ s ∈ cleanGo acc ls, pyStrip s = s ∧ s ≠ "" := by
  induction ls with
  | nil => intro acc hacc s hs; exact hacc s (by simpa [cleanGo] using hs)
  | cons l ls ih =>
    intro acc hacc
    by_cases h1 : pyStrip l = ""
    · intro s hs
      refine ih acc hacc s ?_
      simpa [cleanGo, h1] using hs
    · by_cases h2 : pyStrip l ∈ acc
      · intro s hs
        refine ih acc hacc s ?_
        simpa [cleanGo, h1, h2] using hs
      · intro s hs
        refine ih (acc ++ [pyStrip l]) ?_ s ?_
        · intro t ht
          rcases List.mem_append.mp ht with h | h
          · exact hacc t h
          · have : t = pyStrip l := by simpa using h
            exact this ▸ ⟨pyStrip_idem l, h1⟩
        · simpa [cleanGo, h1, h2] using hs

/-- The loop never emits a duplicate. -/
theorem cleanGo_nodup (ls : List String) :
    ∀ acc, acc.Nodup → (cleanGo acc ls).Nodup := by
  induction ls with
  | nil => intro acc hacc; simpa [cleanGo] using hacc
  | cons l ls ih =>
    intro acc hacc
    by_cases h1 : pyStrip l = ""
    · simpa [cleanGo, h1] using ih acc hacc
    · by_cases h2 : pyStrip l ∈ acc
      · simpa [cleanGo, h1, h2] using ih acc hacc
      · have : (acc ++ [pyStrip l]).Nodup := by
          simp [List.nodup_append, hacc, h2]
        simpa [cleanGo, h1, h2] using ih (acc ++ [pyStrip l]) this

/-- On a list of non-blank strip-fixed pairwise-distinct strings that
avoids the accumulator, the loop is the identity. -/
theorem cleanGo_fixed (xs : List String) :
    ∀ acc, (∀ s ∈ xs, pyStrip s = s ∧ s ≠ "") → xs.Nodup →
      (∀ s ∈ xs, s ∉ acc) → cleanGo acc xs = acc ++ xs := by
  induction xs with
  | nil => intro acc _ _ _; simp [cleanGo]
  | cons x xs ih =>
    intro acc hP hnd hdisj
    obtain ⟨hfix, hne⟩ := hP x (List.mem_cons_self x xs)
    have hx_notin : x ∉ acc := hdisj x (List.mem_cons_self x xs)
    rw [show cleanGo acc (x :: xs) = cleanGo (acc ++ [x]) xs by
        simp [cleanGo, hfix, hne, hx_notin]]
    rw [ih (acc ++ [x]) (fun s hs => hP s (List.mem_cons_of_mem x hs))
        (List.Nodup.of_cons hnd)
        (fun s hs => by
          intro hmem
          rcases List.mem_append.mp hmem with h | h
          · exact hdisj s (List.mem_cons_of_mem x hs) h
          · have hsx : s = x := by simpa using h
            exact (List.nodup_cons.mp hnd).1 (hsx ▸ hs))]
    simp

/-- The key is the fold of `acc ++ "," ++ y`, whose length never
shrinks. -/
theorem pyJoin_foldl_length (sep : String) (xs : List String) :
    ∀ acc : String, acc.length ≤ (xs.foldl (fun a y => a ++ sep ++ y) acc).length := by
  induction xs with
  | nil => intro acc; exact Nat.le_refl _
  | cons y ys ih =>
    intro acc
    refine Nat.le_trans ?_ (ih (acc ++ sep ++ y))
    simp [String.length_append]
    omega

/-- The normalizer never returns an empty key. -/
theorem normalize_key_ne_empty (languages : List String) :
    (normalize_languages languages).2 ≠ "" := by
  rcases hc : cleanLanguages languages with _ | ⟨x, xs⟩
  · simp [normalize_languages, hc]
    decide
  · have hx : pyStrip x = x ∧ x ≠ "" := by
      have := cleanGo_elems languages [] (by simp)
      rw [show cleanGo [] languages = cleanLanguages languages from rfl, hc] at this
      exact this x (List.mem_cons_self x xs)
    have hxlen : 0 < x.length := by
      have : x.data ≠ [] := fun hd => hx.2 (String.ext hd)
      exact List.length_pos.mpr this
    have hkey : (normalize_languages languages).2 =
        xs.foldl (fun a y => a ++ "," ++ y) x := by
      simp [normalize_languages, hc, pyJoin]
    intro hempty
    rw [hkey] at hempty
    have := pyJoin_foldl_length "," xs x
    rw [hempty] at this
    simp at this
    omega

/-! ## Lemmas about the store operations -/

/-- Reading back the key just upserted yields exactly the row written. -/
theorem db_get_upsert_same (store : Store) (v k f c h : String) (now : Int) :
    db_get_transcript (db_upsert_transcript store v k f c h now) v k f =
      some ⟨c, h, now⟩ := by
  induction store with
  | nil => simp [db_upsert_transcript, db_get_transcript]
  | cons r rest ih =>
    by_cases hk : r.1 = ⟨v, k, f⟩
    · simp [db_upsert_transcript, hk, db_get_transcript]
    · simp [db_upsert_transcript, hk, db_get_transcript, ih]

/-- Every row of an upserted store is an old row or the row written. -/
theorem mem_upsert (store : Store) (v k f c h : String) (now : Int) :
    ∀ r ∈ db_upsert_transcript store v k f c h now,
      r ∈ store ∨ r = (⟨v, k, f⟩, ⟨c, h, now⟩) := by
  induction store with
  | nil => intro r hr; simp [db_upsert_transcript] at hr; exact Or.inr hr
  | cons q rest ih =>
    intro r hr
    by_cases hk : q.1 = ⟨v, k, f⟩
    · rw [db_upsert_transcript, if_pos hk] at hr
      rcases List.mem_cons.mp hr with h' | h'
      · exact Or.inr (by rw [h', hk])
      · exact Or.inl (List.mem_cons_of_mem q h')
    · rw [db_upsert_transcript, if_neg hk] at hr
      rcases List.mem_cons.mp hr with h' | h'
      · exact Or.inl (h' ▸ List.mem_cons_self q rest)
      · rcases ih r h' with h'' | h''
        · exact Or.inl (List.mem_cons_of_mem q h'')
        · exact Or.inr h''

/-- Keys of an upserted store: an old key or the key written. -/
theorem mem_upsert_key (store : Store) (v k f c h : String) (now : Int) :
    ∀ r ∈ db_upsert_transcript store v k f c h now,
      r ∈ store ∨ r.1.format = f := by
  intro r hr
  rcases mem_upsert store v k f c h now r hr with h' | h'
  · exact Or.inl h'
  · exact Or.inr (by rw [h'])

/-- The throttle touches only the timestamp and the clock, never the
cache table. -/
theorem yt_throttle_store (interval : Int) (st : AppState) :
    (yt_throttle interval st).store = st.store := by
  simp only [yt_throttle]
  split <;> rfl

/-! ## Claim C6 -/

/-- C6: a request whose normalized format is not "text" fails
immediately with the unsupported-format error; the run performs no
cache lookup, no upstream call, no throttle acquisition and no store
write, and leaves the process state untouched. -/
theorem C6_unsupported_format_fails_fast
    (hashF : String → String)
    (fetchF : String → List String → Except Unit (List String))
    (interval : Int) (video : String) (languages : List String)
    (format : String) (force : Bool) (st : AppState)
    (hfmt : pyLower (pyStrip format) ≠ "text") :
    transcript hashF fetchF interval video languages format force st =
      ⟨.error .unsupportedFormat, st, ⟨0, 0, 0, 0⟩⟩ := by
  simp [transcript, hfmt]

/-- C6 witness: requesting format "srt" against an empty store and a
live upstream stub fails with the unsupported-format error and touches
nothing. -/
theorem C6_witness :
    pyLower (pyStrip "srt") ≠ "text" ∧
    transcript (fun s => s) (fun _ _ => .ok ["hello"]) 25 "vid" ["en"] "srt" false
        ⟨[], 0, 1000⟩ =
      ⟨.error .unsupportedFormat, ⟨[], 0, 1000⟩, ⟨0, 0, 0, 0⟩⟩ :=
  ⟨by decide,
   C6_unsupported_format_fails_fast (fun s => s) (fun _ _ => .ok ["hello"]) 25
     "vid" ["en"] "srt" false ⟨[], 0, 1000⟩ (by decide)⟩

/-! ## Claim C1 -/

/-- C1: with `force = false` and a cache entry present under the
normalized key, the orchestrator returns that entry tagged as a hit
with no upstream call, no throttle acquisition, no write, and an
unchanged state (first conjunct); for a fresh key the first call is a
miss performing exactly one upstream invocation and the identical
second call is a hit performing zero upstream invocations (second
conjunct). -/
theorem C1_cache_hit_and_miss :
    (∀ (hashF : String → String)
       (fetchF : String → List String → Except Unit (List String))
       (interval : Int) (video : String) (languages : List String)
       (format : String) (st : AppState) (row : CacheRow),
       pyLower (pyStrip format) = "text" →
       db_get_transcript st.store video (normalize_languages languages).2 "text" =
         some row →
       transcript hashF fetchF interval video languages format false st =
         ⟨.ok ⟨video, (normalize_languages languages).1,
               (normalize_languages languages).2, "text", true,
               row.transcript_hash, some row.fetched_at, row.content⟩,
          st, ⟨1, 0, 0, 0⟩⟩)
    ∧
    (∀ (hashF : String → String)
       (fetchF : String → List String → Except Unit (List String))
       (interval : Int) (video : String) (languages : List String)
       (format : String) (st : AppState) (segs : List String),
       pyLower (pyStrip format) = "text" →
       db_get_transcript st.store video (normalize_languages languages).2 "text" =
         none →
       fetchF video (normalize_languages languages).1 = .ok segs →
       pyStrip (pyJoin "\n" segs) ≠ "" →
       (transcript hashF fetchF interval video languages format false
          st).counters.upstreamCalls = 1 ∧
       (transcript hashF fetchF interval video languages format false st).response =
         .ok ⟨video, (normalize_languages languages).1,
              (normalize_languages languages).2, "text", false,
              hashF (pyStrip (pyJoin "\n" segs)), none,
              pyStrip (pyJoin "\n" segs)⟩ ∧
       (transcript hashF fetchF interval video languages format false
          (transcript hashF fetchF interval video languages format false
             st).state).counters.upstreamCalls = 0 ∧
       (transcript hashF fetchF interval video languages format false
          (transcript hashF fetchF interval video languages format false
             st).state).response =
         .ok ⟨video, (normalize_languages languages).1,
              (normalize_languages languages).2, "text", true,
              hashF (pyStrip (pyJoin "\n" segs)),
              some (yt_throttle interval st).now,
              pyStrip (pyJoin "\n" segs)⟩) := by
  constructor
  · intro hashF fetchF interval video languages format st row hfmt hdb
    simp [transcript, hfmt, hdb]
  · intro hashF fetchF interval video languages format st segs hfmt hdb hfetch hne
    have hrun1 : transcript hashF fetchF interval video languages format false st =
        ⟨.ok ⟨video, (normalize_languages languages).1,
              (normalize_languages languages).2, "text", false,
              hashF (pyStrip (pyJoin "\n" segs)), none,
              pyStrip (pyJoin "\n" segs)⟩,
         { yt_throttle interval st with
             store := db_upsert_transcript st.store video
               (normalize_languages languages).2 "text"
               (pyStrip (pyJoin "\n" segs))
               (hashF (pyStrip (pyJoin "\n" segs)))
               (yt_throttle interval st).now },
         ⟨1, 1, 1, 1⟩⟩ := by
      simp [transcript, hfmt, hdb, fetch_transcript_from_youtube, hfetch, hne,
            yt_throttle_store]
    refine ⟨by rw [hrun1], by rw [hrun1], ?_, ?_⟩
    · rw [hrun1]
      simp [transcript, hfmt, db_get_upsert_same]
    · rw [hrun1]
      simp [transcript, hfmt, db_get_upsert_same]

/-- C1 witness: a concrete fresh key ("vid", default languages, format
"text") against a stub upstream producing two segments: the first call
is a miss with one upstream invocation, the second an identical hit
with zero. -/
theorem C1_witness :
    pyLower (pyStrip "text") = "text" ∧
    db_get_transcript ([] : Store) "vid" (normalize_languages ["en"]).2 "text" = none ∧
    (fun (_ : String) (_ : List String) =>
        (.ok ["hello", "world"] : Except Unit (List String))) "vid"
      (normalize_languages ["en"]).1 = .ok ["hello", "world"] ∧
    pyStrip (pyJoin "\n" ["hello", "world"]) ≠ "" ∧
    (transcript (fun s => s)
       (fun _ _ => .ok ["hello", "world"]) 25 "vid" ["en"] "text" false
       ⟨[], 0, 1000⟩).counters.upstreamCalls = 1 ∧
    (transcript (fun s => s)
       (fun _ _ => .ok ["hello", "world"]) 25 "vid" ["en"] "text" false
       (transcript (fun s => s)
          (fun _ _ => .ok ["hello", "world"]) 25 "vid" ["en"] "text" false
          ⟨[], 0, 1000⟩).state).counters.upstreamCalls = 0 := by
  refine ⟨by decide, by decide, rfl, by decide, ?_, ?_⟩
  · exact (C1_cache_hit_and_miss.2 (fun s => s)
      (fun _ _ => .ok ["hello", "world"]) 25 "vid" ["en"] "text"
      ⟨[], 0, 1000⟩ ["hello", "world"] (by decide) (by decide) rfl (by decide)).1
  · exact (C1_cache_hit_and_miss.2 (fun s => s)
      (fun _ _ => .ok ["hello", "world"]) 25 "vid" ["en"] "text"
      ⟨[], 0, 1000⟩ ["hello", "world"] (by decide) (by decide) rfl (by decide)).2.2.1

/-! ## Claim C2 -/

/-- C2: when the upstream fetch succeeds but the newline-joined,
whitespace-stripped concatenation of the segments is empty, the run
fails with the empty-content error and performs no store write: the
table is exactly as before. -/
theorem C2_empty_result_never_cached
    (hashF : String → String)
    (fetchF : String → List String → Except Unit (List String))
    (interval : Int) (video : String) (languages : List String)
    (format : String) (force : Bool) (st : AppState) (segs : List String)
    (hfmt : pyLower (pyStrip format) = "text")
    (hpath : force = true ∨
      db_get_transcript st.store video (normalize_languages languages).2 "text" = none)
    (hfetch : fetchF video (normalize_languages languages).1 = .ok segs)
    (hempty : pyStrip (pyJoin "\n" segs) = "") :
    (transcript hashF fetchF interval video languages format force st).response =
      .error .emptyContent ∧
    (transcript hashF fetchF interval video languages format force st).state.store =
      st.store ∧
    (transcript hashF fetchF interval video languages format force
       st).counters.dbWrites = 0 := by
  cases force with
  | true =>
    simp [transcript, hfmt, fetch_transcript_from_youtube, hfetch, hempty,
          yt_throttle_store]
  | false =>
    rcases hpath with h | hdb
    · exact absurd h (by simp)
    · simp [transcript, hfmt, hdb, fetch_transcript_from_youtube, hfetch, hempty,
            yt_throttle_store]

/-- C2 witness: an upstream stub returning zero segments for a fresh
key makes the run fail with the empty-content error, and the (empty)
store stays empty. -/
theorem C2_witness :
    pyLower (pyStrip "text") = "text" ∧
    db_get_transcript ([] : Store) "vid" (normalize_languages ["en"]).2 "text" = none ∧
    (fun (_ : String) (_ : List String) =>
        (.ok [] : Except Unit (List String))) "vid"
      (normalize_languages ["en"]).1 = .ok [] ∧
    pyStrip (pyJoin "\n" []) = "" ∧
    (transcript (fun s => s) (fun _ _ => .ok []) 25 "vid" ["en"] "text" false
       ⟨[], 0, 1000⟩).response = .error .emptyContent ∧
    (transcript (fun s => s) (fun _ _ => .ok []) 25 "vid" ["en"] "text" false
       ⟨[], 0, 1000⟩).state.store = [] := by
  have h := C2_empty_result_never_cached (fun s => s) (fun _ _ => .ok []) 25
    "vid" ["en"] "text" false ⟨[], 0, 1000⟩ [] (by decide)
    (Or.inr (by decide)) rfl (by decide)
  exact ⟨by decide, by decide, rfl, by decide, h.1, h.2.1⟩

/-! ## Claim C3 -/

/-- C3: the normalizer returns the stripped input with blanks removed
and duplicates removed by first occurrence in the caller's order
(refinement against the spec-side `normalizeSpec`), with the default
pair substituted when nothing remains; the three example inputs give
the documented keys; and the produced key is never empty. -/
theorem C3_normalizer_correct :
    (∀ L, normalize_languages L = normalizeSpec L) ∧
    normalize_languages [] = (["pl", "en"], "pl,en") ∧
    normalize_languages ["", " "] = (["pl", "en"], "pl,en") ∧
    normalize_languages ["en", "en", "pl"] = (["en", "pl"], "en,pl") ∧
    (∀ L, (normalize_languages L).2 ≠ "") := by
  refine ⟨?_, by decide, by decide, by decide, normalize_key_ne_empty⟩
  intro L
  simp [normalize_languages, normalizeSpec, cleanLanguages_eq_spec]

/-- C3 witness: the refinement and the non-empty-key guarantee at a
concrete input containing a blank and a duplicate. -/
theorem C3_witness :
    normalize_languages ["fr", "", " fr "] = normalizeSpec ["fr", "", " fr "] ∧
    (normalize_languages ["fr", "", " fr "]).2 ≠ "" :=
  ⟨C3_normalizer_correct.1 ["fr", "", " fr "],
   C3_normalizer_correct.2.2.2.2 ["fr", "", " fr "]⟩

/-! ## Claim C8 -/

/-- C8: re-normalizing the cleaned sequence produced for a list gives
the same result as normalizing the list itself, including when the
cleaned sequence is the substituted default pair. -/
theorem C8_normalize_idempotent_on_cleaned (L : List String) :
    normalize_languages ((normalize_languages L).1) = normalize_languages L := by
  rcases hc : cleanLanguages L with _ | ⟨x, xs⟩
  · have h1 : (normalize_languages L).1 = ["pl", "en"] := by
      simp [normalize_languages, hc]
    have h2 : normalize_languages L = (["pl", "en"], "pl,en") := by
      simp [normalize_languages, hc]
      decide
    rw [h1, h2]
    decide
  · have helems : ∀ s ∈ x :: xs, pyStrip s = s ∧ s ≠ "" := by
      have h := cleanGo_elems L [] (by simp)
      rw [show cleanGo [] L = cleanLanguages L from rfl, hc] at h
      exact h
    have hnd : (x :: xs).Nodup := by
      have h := cleanGo_nodup L [] (by simp)
      rw [show cleanGo [] L = cleanLanguages L from rfl, hc] at h
      exact h
    have hfix : cleanLanguages (x :: xs) = x :: xs := by
      simpa [cleanLanguages] using
        cleanGo_fixed (x :: xs) [] helems hnd (by simp)
    have h1 : (normalize_languages L).1 = x :: xs := by
      simp [normalize_languages, hc]
    rw [h1]
    simp [normalize_languages, hfix, hc]

/-- C8 witness: idempotence at a concrete list with whitespace and a
duplicate, and at a list whose cleaned sequence is the default pair. -/
theorem C8_witness :
    normalize_languages ((normalize_languages [" en", "pl", "en "]).1) =
      normalize_languages [" en", "pl", "en "] ∧
    normalize_languages ((normalize_languages [" ", ""]).1) =
      normalize_languages [" ", ""] :=
  ⟨C8_normalize_idempotent_on_cleaned [" en", "pl", "en "],
   C8_normalize_idempotent_on_cleaned [" ", ""]⟩

/-! ## Claim C5 -/

/-- Upserting a row whose fingerprint is the hash of the content being
written preserves the store invariant. -/
theorem storeHashed_upsert (hashF : String → String) (store : Store)
    (v k f c : String) (now : Int) (hst : StoreHashed hashF store) :
    StoreHashed hashF (db_upsert_transcript store v k f c (hashF c) now) := by
  intro r hr
  rcases mem_upsert store v k f c (hashF c) now r hr with h | h
  · exact hst r h
  · rw [h]

/-- Deleting rows preserves the store invariant. -/
theorem storeHashed_cleanup (hashF : String → String) (store : Store)
    (now keep_days : Int) (hst : StoreHashed hashF store) :
    StoreHashed hashF (cleanup store now keep_days).1 := by
  intro r hr
  obtain ⟨hmem, -⟩ : r ∈ store ∧ now ≤ r.2.fetched_at + keep_days * 86400 := by
    simpa [cleanup] using hr
  exact hst r hmem

/-- Every path of the orchestrator preserves the store invariant: the
only write is the upsert of the freshly fetched content together with
its own hash. -/
theorem storeHashed_transcript (hashF : String → String)
    (fetchF : String → List String → Except Unit (List String))
    (interval : Int) (video : String) (languages : List String)
    (format : String) (force : Bool) (st : AppState)
    (hst : StoreHashed hashF st.store) :
    StoreHashed hashF
      (transcript hashF fetchF interval video languages format force
         st).state.store := by
  by_cases hfmt : pyLower (pyStrip format) = "text"
  · rcases hlookup : (if force then none
        else db_get_transcript st.store video (normalize_languages languages).2
          "text") with _ | row
    · rcases hf : fetchF video (normalize_languages languages).1 with e | segs
      · simpa [transcript, hfmt, hlookup, fetch_transcript_from_youtube, hf,
               yt_throttle_store] using hst
      · by_cases hempty : pyStrip (pyJoin "\n" segs) = ""
        · simpa [transcript, hfmt, hlookup, fetch_transcript_from_youtube, hf,
                 hempty, yt_throttle_store] using hst
        · have hgoal : (transcript hashF fetchF interval video languages format
              force st).state.store =
              db_upsert_transcript st.store video
                (normalize_languages languages).2 "text"
                (pyStrip (pyJoin "\n" segs))
                (hashF (pyStrip (pyJoin "\n" segs)))
                (yt_throttle interval st).now := by
            simp [transcript, hfmt, hlookup, fetch_transcript_from_youtube, hf,
                  hempty, yt_throttle_store]
          rw [hgoal]
          exact storeHashed_upsert hashF st.store video
            (normalize_languages languages).2 "text"
            (pyStrip (pyJoin "\n" segs)) (yt_throttle interval st).now hst
    · simpa [transcript, hfmt, hlookup] using hst
  · simpa [transcript, hfmt] using hst

/-- C5: after every store-writing operation the fingerprint column of
each row is the hash of the co-stored content: the upsert writes the
two together, every orchestrator run preserves the invariant, and the
purge preserves it. -/
theorem C5_fingerprint_always_hash_of_content :
    (∀ (hashF : String → String) (store : Store) (v k f c : String) (now : Int),
       StoreHashed hashF store →
       StoreHashed hashF (db_upsert_transcript store v k f c (hashF c) now)) ∧
    (∀ (hashF : String → String)
       (fetchF : String → List String → Except Unit (List String))
       (interval : Int) (video : String) (languages : List String)
       (format : String) (force : Bool) (st : AppState),
       StoreHashed hashF st.store →
       StoreHashed hashF
         (transcript hashF fetchF interval video languages format force
            st).state.store) ∧
    (∀ (hashF : String → String) (store : Store) (now keep_days : Int),
       StoreHashed hashF store →
       StoreHashed hashF (cleanup store now keep_days).1) :=
  ⟨storeHashed_upsert, storeHashed_transcript, storeHashed_cleanup⟩

/-- C5 witness: starting from the empty store (trivially invariant), a
run that fetches and caches "hello" leaves a store in which every
fingerprint is the identity hash of its content. -/
theorem C5_witness :
    StoreHashed (fun s => s)
      (transcript (fun s => s) (fun _ _ => .ok ["hello"]) 25 "vid" ["en"]
         "text" false ⟨[], 0, 1000⟩).state.store :=
  C5_fingerprint_always_hash_of_content.2.1 (fun s => s)
    (fun _ _ => .ok ["hello"]) 25 "vid" ["en"] "text" false ⟨[], 0, 1000⟩
    (fun r hr => absurd hr (List.not_mem_nil r))

/-! ## Claim C7 -/

/-- A list splits into the rows matched and not matched by a
predicate. -/
theorem length_filter_split (l : List (CacheKey × CacheRow))
    (p : CacheKey × CacheRow → Bool) :
    (l.filter p).length + (l.filter (fun a => !p a)).length = l.length := by
  induction l with
  | nil => rfl
  | cons a l ih =>
    by_cases h : p a <;> simp [List.filter_cons, h] <;> omega

/-- C7: the purge keeps exactly the rows whose `fetched_at` is not
strictly older than now minus the threshold, the reported count is the
number of strictly-older rows, kept plus removed is the whole table,
and the 90/30/1-day scenario with a 60-day threshold removes exactly
the oldest row and reports 1 (timestamps in seconds, now = day 100). -/
theorem C7_purge_strictly_older :
    (∀ (store : Store) (now keep_days : Int) (r : CacheKey × CacheRow),
       r ∈ (cleanup store now keep_days).1 ↔
         r ∈ store ∧ ¬(r.2.fetched_at < now - keep_days * 86400)) ∧
    (∀ (store : Store) (now keep_days : Int),
       (cleanup store now keep_days).2 =
         (store.filter
            (fun r => decide (r.2.fetched_at < now - keep_days * 86400))).length) ∧
    (∀ (store : Store) (now keep_days : Int),
       (cleanup store now keep_days).2 + (cleanup store now keep_days).1.length =
         store.length) ∧
    cleanup
        [(⟨"a", "pl,en", "text"⟩, ⟨"c1", "h1", 864000⟩),
         (⟨"b", "pl,en", "text"⟩, ⟨"c2", "h2", 6048000⟩),
         (⟨"c", "pl,en", "text"⟩, ⟨"c3", "h3", 8553600⟩)] 8640000 60 =
      ([(⟨"b", "pl,en", "text"⟩, ⟨"c2", "h2", 6048000⟩),
        (⟨"c", "pl,en", "text"⟩, ⟨"c3", "h3", 8553600⟩)], 1) := by
  refine ⟨?_, ?_, ?_, by decide⟩
  · intro store now keep_days r
    simp [cleanup, List.mem_filter]
  · intro store now keep_days
    rfl
  · intro store now keep_days
    simpa [cleanup] using
      length_filter_split store
        (fun r => decide (r.2.fetched_at < now - keep_days * 86400))

/-- C7 witness: in the concrete scenario the 30-day-old row survives
the 60-day purge, by the membership characterization. -/
theorem C7_witness :
    (⟨"b", "pl,en", "text"⟩, (⟨"c2", "h2", 6048000⟩ : CacheRow)) ∈
      (cleanup
        [(⟨"a", "pl,en", "text"⟩, ⟨"c1", "h1", 864000⟩),
         (⟨"b", "pl,en", "text"⟩, ⟨"c2", "h2", 6048000⟩),
         (⟨"c", "pl,en", "text"⟩, ⟨"c3", "h3", 8553600⟩)] 8640000 60).1 :=
  (C7_purge_strictly_older.1 _ 8640000 60 _).mpr ⟨by decide, by decide⟩

/-! ## Claim C10 -/

/-- C10: the request's format string is stripped and lowercased before
the check, so the unsupported-format error is raised exactly when that
normalized form differs from "text"; every successful response reports
format "text"; and every row the run adds to the store is keyed under
format "text". -/
theorem C10_format_stripped_lowercased
    (hashF : String → String)
    (fetchF : String → List String → Except Unit (List String))
    (interval : Int) (video : String) (languages : List String)
    (format : String) (force : Bool) (st : AppState) :
    ((transcript hashF fetchF interval video languages format force st).response =
        .error .unsupportedFormat ↔ pyLower (pyStrip format) ≠ "text") ∧
    (∀ resp,
       (transcript hashF fetchF interval video languages format force st).response =
         .ok resp → resp.format = "text") ∧
    (∀ e ∈ (transcript hashF fetchF interval video languages format force
        st).state.store, e ∈ st.store ∨ e.1.format = "text") := by
  by_cases hfmt : pyLower (pyStrip format) = "text"
  · rcases hlookup : (if force then none
        else db_get_transcript st.store video (normalize_languages languages).2
          "text") with _ | row
    · rcases hf : fetchF video (normalize_languages languages).1 with e | segs
      · refine ⟨by simp [transcript, hfmt, hlookup, fetch_transcript_from_youtube, hf],
                by simp [transcript, hfmt, hlookup, fetch_transcript_from_youtube, hf],
                ?_⟩
        intro r hr
        exact Or.inl (by
          simpa [transcript, hfmt, hlookup, fetch_transcript_from_youtube, hf,
                 yt_throttle_store] using hr)
      · by_cases hempty : pyStrip (pyJoin "\n" segs) = ""
        · refine ⟨by simp [transcript, hfmt, hlookup, fetch_transcript_from_youtube,
                           hf, hempty],
                  by simp [transcript, hfmt, hlookup, fetch_transcript_from_youtube,
                           hf, hempty],
                  ?_⟩
          intro r hr
          exact Or.inl (by
            simpa [transcript, hfmt, hlookup, fetch_transcript_from_youtube, hf,
                   hempty, yt_throttle_store] using hr)
        · refine ⟨by simp [transcript, hfmt, hlookup, fetch_transcript_from_youtube,
                           hf, hempty],
                  ?_, ?_⟩
          · intro resp hresp
            have : resp = ⟨video, (normalize_languages languages).1,
                (normalize_languages languages).2, "text", false,
                hashF (pyStrip (pyJoin "\n" segs)), none,
                pyStrip (pyJoin "\n" segs)⟩ := by
              have h := hresp
              simp [transcript, hfmt, hlookup, fetch_transcript_from_youtube, hf,
                    hempty] at h
              exact h.symm
            rw [this]
          · intro r hr
            have hr' : r ∈ db_upsert_transcript st.store video
                (normalize_languages languages).2 "text"
                (pyStrip (pyJoin "\n" segs))
                (hashF (pyStrip (pyJoin "\n" segs)))
                (yt_throttle interval st).now := by
              simpa [transcript, hfmt, hlookup, fetch_transcript_from_youtube, hf,
                     hempty, yt_throttle_store] using hr
            exact mem_upsert_key st.store video (normalize_languages languages).2
              "text" (pyStrip (pyJoin "\n" segs))
              (hashF (pyStrip (pyJoin "\n" segs)))
              (yt_throttle interval st).now r hr'
    · refine ⟨by simp [transcript, hfmt, hlookup], ?_, ?_⟩
      · intro resp hresp
        have : resp = ⟨video, (normalize_languages languages).1,
            (normalize_languages languages).2, "text", true,
            row.transcript_hash, some row.fetched_at, row.content⟩ := by
          have h := hresp
          simp [transcript, hfmt, hlookup] at h
          exact h.symm
        rw [this]
      · intro r hr
        exact Or.inl (by simpa [transcript, hfmt, hlookup] using hr)
  · refine ⟨by simp [transcript, hfmt], by simp [transcript, hfmt], ?_⟩
    intro r hr
    exact Or.inl (by simpa [transcript, hfmt] using hr)

/-- C10 witness: format " Text " (stripped lowercase "text") is
accepted — its run does not raise the unsupported-format error — while
format "SRT" is rejected with it. -/
theorem C10_witness :
    ¬((transcript (fun s => s) (fun _ _ => .ok ["hello"]) 25 "vid" ["en"]
        " Text " false ⟨[], 0, 1000⟩).response = .error .unsupportedFormat) ∧
    (transcript (fun s => s) (fun _ _ => .ok ["hello"]) 25 "vid" ["en"]
        "SRT" false ⟨[], 0, 1000⟩).response = .error .unsupportedFormat :=
  ⟨fun h =>
    ((C10_format_stripped_lowercased (fun s => s) (fun _ _ => .ok ["hello"]) 25
        "vid" ["en"] " Text " false ⟨[], 0, 1000⟩).1.mp h) (by decide),
   (C10_format_stripped_lowercased (fun s => s) (fun _ _ => .ok ["hello"]) 25
        "vid" ["en"] "SRT" false ⟨[], 0, 1000⟩).1.mpr (by decide)⟩

/-! ## Claim C9 -/

/-- C9: the boundary separates the three failure classes pairwise: a
request finding no usable transcript surfaces the empty-content error
(status 404), one hitting an unavailable/rate-limited upstream the
blocked error (status 429), and one with a bad input the
unsupported-format error (status 400), and the three status codes are
pairwise distinct. -/
theorem C9_failure_classes_distinct :
    (transcript (fun s => s) (fun _ _ => .ok []) 25 "v1" ["en"] "text" false
       ⟨[], 0, 1000⟩).response = .error .emptyContent ∧
    (transcript (fun s => s) (fun _ _ => .error ()) 25 "v2" ["en"] "text" false
       ⟨[], 0, 1000⟩).response = .error .upstreamBlocked ∧
    (transcript (fun s => s) (fun _ _ => .ok ["hi"]) 25 "v3" ["en"] "srt" false
       ⟨[], 0, 1000⟩).response = .error .unsupportedFormat ∧
    statusCode .emptyContent ≠ statusCode .upstreamBlocked ∧
    statusCode .emptyContent ≠ statusCode .unsupportedFormat ∧
    statusCode .upstreamBlocked ≠ statusCode .unsupportedFormat := by
  refine ⟨?_, ?_, ?_, by decide, by decide, by decide⟩ <;> decide

/-! ## Claim C4 -/

/-- C4 counterexample: the source guards `yt_throttle`'s
read-compute-sleep-write sequence on the shared `_last_yt_call_ts`
with no lock, so the interleaving in which both threads read the
(stale) sentinel timestamp before either writes is an execution of the
code: both callers finish without ever sleeping and proceed to their
upstream calls at the same instant, with spacing 0 instead of the
configured 25-second interval. -/
theorem C4_counterexample_race :
    ∃ s : ThrottleSys, ThrottleReaches 25 throttleRaceInit s ∧
      s.thA.pc = .finished ∧ s.thB.pc = .finished ∧
      s.thA.slept = false ∧ s.thB.slept = false ∧
      s.thB.proceedAt - s.thA.proceedAt < 25 := by
  have h1 : ThrottleStep 25 ⟨0, 100, .start, .start⟩
      ⟨0, 100, ⟨.atGate, -75, 25, false, 0⟩, .start⟩ := by
    have heq : (⟨0, 100, ⟨.atGate, -75, 25, false, 0⟩, .start⟩ : ThrottleSys) =
        setTh ⟨0, 100, .start, .start⟩ true
          { getTh ⟨0, 100, .start, .start⟩ true with
              pc := .atGate,
              wait := ((0 : Int) + 25) - 100,
              wakeAt := 100 + (((0 : Int) + 25) - 100) } := by decide
    rw [heq]
    exact ThrottleStep.read _ true (by decide)
  have h2 : ThrottleStep 25
      ⟨0, 100, ⟨.atGate, -75, 25, false, 0⟩, .start⟩
      ⟨0, 100, ⟨.atGate, -75, 25, false, 0⟩, ⟨.atGate, -75, 25, false, 0⟩⟩ := by
    have heq : (⟨0, 100, ⟨.atGate, -75, 25, false, 0⟩,
        ⟨.atGate, -75, 25, false, 0⟩⟩ : ThrottleSys) =
        setTh ⟨0, 100, ⟨.atGate, -75, 25, false, 0⟩, .start⟩ false
          { getTh ⟨0, 100, ⟨.atGate, -75, 25, false, 0⟩, .start⟩ false with
              pc := .atGate,
              wait := ((0 : Int) + 25) - 100,
              wakeAt := 100 + (((0 : Int) + 25) - 100) } := by decide
    rw [heq]
    exact ThrottleStep.read _ false (by decide)
  have h3 : ThrottleStep 25
      ⟨0, 100, ⟨.atGate, -75, 25, false, 0⟩, ⟨.atGate, -75, 25, false, 0⟩⟩
      ⟨0, 100, ⟨.atWrite, -75, 25, false, 0⟩, ⟨.atGate, -75, 25, false, 0⟩⟩ := by
    have heq : (⟨0, 100, ⟨.atWrite, -75, 25, false, 0⟩,
        ⟨.atGate, -75, 25, false, 0⟩⟩ : ThrottleSys) =
        setTh ⟨0, 100, ⟨.atGate, -75, 25, false, 0⟩,
            ⟨.atGate, -75, 25, false, 0⟩⟩ true
          { getTh ⟨0, 100, ⟨.atGate, -75, 25, false, 0⟩,
              ⟨.atGate, -75, 25, false, 0⟩⟩ true with pc := .atWrite } := by decide
    rw [heq]
    exact ThrottleStep.pass _ true (by decide) (by decide)
  have h4 : ThrottleStep 25
      ⟨0, 100, ⟨.atWrite, -75, 25, false, 0⟩, ⟨.atGate, -75, 25, false, 0⟩⟩
      ⟨0, 100, ⟨.atWrite, -75, 25, false, 0⟩, ⟨.atWrite, -75, 25, false, 0⟩⟩ := by
    have heq : (⟨0, 100, ⟨.atWrite, -75, 25, false, 0⟩,
        ⟨.atWrite, -75, 25, false, 0⟩⟩ : ThrottleSys) =
        setTh ⟨0, 100, ⟨.atWrite, -75, 25, false, 0⟩,
            ⟨.atGate, -75, 25, false, 0⟩⟩ false
          { getTh ⟨0, 100, ⟨.atWrite, -75, 25, false, 0⟩,
              ⟨.atGate, -75, 25, false, 0⟩⟩ false with pc := .atWrite } := by decide
    rw [heq]
    exact ThrottleStep.pass _ false (by decide) (by decide)
  have h5 : ThrottleStep 25
      ⟨0, 100, ⟨.atWrite, -75, 25, false, 0⟩, ⟨.atWrite, -75, 25, false, 0⟩⟩
      ⟨100, 100, ⟨.finished, -75, 25, false, 100⟩,
        ⟨.atWrite, -75, 25, false, 0⟩⟩ := by
    have heq : (⟨100, 100, ⟨.finished, -75, 25, false, 100⟩,
        ⟨.atWrite, -75, 25, false, 0⟩⟩ : ThrottleSys) =
        { setTh ⟨0, 100, ⟨.atWrite, -75, 25, false, 0⟩,
              ⟨.atWrite, -75, 25, false, 0⟩⟩ true
            { getTh ⟨0, 100, ⟨.atWrite, -75, 25, false, 0⟩,
                ⟨.atWrite, -75, 25, false, 0⟩⟩ true with
                pc := .finished, proceedAt := 100 }
          with last_ts := 100 } := by decide
    rw [heq]
    exact ThrottleStep.write _ true (by decide)
  have h6 : ThrottleStep 25
      ⟨100, 100, ⟨.finished, -75, 25, false, 100⟩, ⟨.atWrite, -75, 25, false, 0⟩⟩
      ⟨100, 100, ⟨.finished, -75, 25, false, 100⟩,
        ⟨.finished, -75, 25, false, 100⟩⟩ := by
    have heq : (⟨100, 100, ⟨.finished, -75, 25, false, 100⟩,
        ⟨.finished, -75, 25, false, 100⟩⟩ : ThrottleSys) =
        { setTh ⟨100, 100, ⟨.finished, -75, 25, false, 100⟩,
              ⟨.atWrite, -75, 25, false, 0⟩⟩ false
            { getTh ⟨100, 100, ⟨.finished, -75, 25, false, 100⟩,
                ⟨.atWrite, -75, 25, false, 0⟩⟩ false with
                pc := .finished, proceedAt := 100 }
          with last_ts := 100 } := by decide
    rw [heq]
    exact ThrottleStep.write _ false (by decide)
  refine ⟨⟨100, 100, ⟨.finished, -75, 25, false, 100⟩,
      ⟨.finished, -75, 25, false, 100⟩⟩, ?_, rfl, rfl, rfl, rfl, by decide⟩
  exact Relation.ReflTransGen.tail
    (Relation.ReflTransGen.tail
      (Relation.ReflTransGen.tail
        (Relation.ReflTransGen.tail
          (Relation.ReflTransGen.tail
            (Relation.ReflTransGen.tail Relation.ReflTransGen.refl h1) h2) h3)
        h4) h5) h6
